import Mathlib

/-
Verification development for the order-preserving YAML/JSON document core
of the swag library (yaml.go).

The Go code is shallowly embedded:
- yaml.Node (of gopkg.in/yaml.v3) becomes the inductive type YamlNode;
  tags are carried as raw strings and resolved through a model of the
  LongTag accessor of the library.
- Go interface values flowing through the converter become the inductive
  type GoValue, one constructor per dynamic type the code dispatches on.
- Go float64 values are modelled opaquely by their shortest decimal
  rendering, i.e. the string strconv.FormatFloat produces with format f
  and precision -1; no claim here depends on float arithmetic.
- Unbounded Go recursion is modelled with an explicit depth budget
  (fuel); exhausted fuel is an error, which mirrors the stack-depth
  bound the specification itself acknowledges. Theorems are stated so
  that fuel exhaustion never makes a conclusion spuriously true, and
  witnesses evaluate at concrete fuel.
-/

abbrev Err := String

/-- The YAML 1.2 long tags used by the code, named as in the source. -/
def yamlStringScalar : String := "tag:yaml.org,2002:str"

def yamlIntScalar : String := "tag:yaml.org,2002:int"

def yamlBoolScalar : String := "tag:yaml.org,2002:bool"

def yamlFloatScalar : String := "tag:yaml.org,2002:float"

def yamlTimestamp : String := "tag:yaml.org,2002:timestamp"

def yamlNull : String := "tag:yaml.org,2002:null"

/-- The common start of every long YAML tag (18 characters). -/
def yamlTagDomain : String := "tag:yaml.org,2002:"

/-- Leading-segment test on character lists (the standard library test
on strings does not evaluate inside the kernel). -/
def listIsStart : List Char → List Char → Bool
  | [], _ => true
  | _ :: _, [] => false
  | a :: as, b :: bs => a == b && listIsStart as bs

/-- Leading-segment test on strings, by characters. -/
def startsWithText (s p : String) : Bool := listIsStart p.toList s.toList

/-- Models the shortTag helper of gopkg.in/yaml.v3: a long tag is
abbreviated to its double-bang form, anything else is returned as is. -/
def shortTagOf (tag : String) : String :=
  if startsWithText tag yamlTagDomain then "!!" ++ tag.drop 18 else tag

/-- Models the longTag helper of gopkg.in/yaml.v3: a double-bang tag is
expanded to its long form, anything else is returned as is. -/
def longTagOf (tag : String) : String :=
  if startsWithText tag "!!" then yamlTagDomain ++ tag.drop 2 else tag

/-- Accumulating base-10 digit parser: returns none when a non-digit
occurs, otherwise the value of the digits read so far. -/
def parseDecDigits (acc : Nat) : List Char → Option Nat
  | [] => some acc
  | c :: cs =>
    if c.isDigit then parseDecDigits (acc * 10 + (c.toNat - 48)) cs else none

/-- Models strconv.ParseBool: the exact set of accepted literals. -/
def goParseBool (s : String) : Except Err Bool :=
  match s with
  | "1" | "t" | "T" | "TRUE" | "true" | "True" => .ok true
  | "0" | "f" | "F" | "FALSE" | "false" | "False" => .ok false
  | _ => .error "strconv.ParseBool: parsing failed"

/-- Body of the ParseInt model after the sign has been split off:
non-empty base-10 digits, checked against the signed 64-bit range. -/
def goParseIntDigits (neg : Bool) (cs : List Char) : Except Err Int :=
  match cs with
  | [] => .error "strconv.ParseInt: invalid digits"
  | _ =>
    match parseDecDigits 0 cs with
    | none => .error "strconv.ParseInt: invalid digits"
    | some n =>
      if neg then
        if n ≤ 2 ^ 63 then .ok (-(n : Int))
        else .error "strconv.ParseInt: value out of range"
      else
        if n < 2 ^ 63 then .ok (n : Int)
        else .error "strconv.ParseInt: value out of range"

/-- Models strconv.ParseInt(s, 10, 64): optional sign, non-empty decimal
digits, 64-bit signed range check; anything else is an error. -/
def goParseInt64 (s : String) : Except Err Int :=
  match s.toList with
  | '+' :: rest => goParseIntDigits false rest
  | '-' :: rest => goParseIntDigits true rest
  | cs => goParseIntDigits false cs

/-- Accepts an optional exponent part of a float literal. -/
def floatExpOK : List Char → Bool
  | [] => true
  | 'e' :: rest =>
    match rest with
    | '+' :: ds => !ds.isEmpty && ds.all Char.isDigit
    | '-' :: ds => !ds.isEmpty && ds.all Char.isDigit
    | ds => !ds.isEmpty && ds.all Char.isDigit
  | 'E' :: rest =>
    match rest with
    | '+' :: ds => !ds.isEmpty && ds.all Char.isDigit
    | '-' :: ds => !ds.isEmpty && ds.all Char.isDigit
    | ds => !ds.isEmpty && ds.all Char.isDigit
  | _ => false

/-- Accepts the unsigned body of a decimal float literal: digits with an
optional fractional part and an optional exponent. -/
def floatBodyOK (cs : List Char) : Bool :=
  match cs.span Char.isDigit with
  | (ip, rest) =>
    match rest with
    | [] => !ip.isEmpty
    | '.' :: frac =>
      match frac.span Char.isDigit with
      | (fp, rest2) => (!ip.isEmpty || !fp.isEmpty) && floatExpOK rest2
    | _ => !ip.isEmpty && floatExpOK rest

/-- Syntactic acceptance of a float literal, with an optional sign. -/
def floatTextOK (s : String) : Bool :=
  match s.toList with
  | '+' :: rest => floatBodyOK rest
  | '-' :: rest => floatBodyOK rest
  | cs => floatBodyOK cs

/-- Drops redundant trailing zeros of a fractional part (and a then
dangling dot), so that the text agrees with the shortest rendering of
the denoted double for the simple literals used in this development. -/
def stripTrailingFracZeros (s : String) : String :=
  if s.toList.contains '.' then
    let r := s.toList.reverse.dropWhile (· == '0')
    let r2 := if r.head? = some '.' then r.tail else r
    String.mk r2.reverse
  else s

/-- Canonical text of a parsed float literal under the rendering model. -/
def canonFloatText (s : String) : String :=
  match s.toList with
  | '+' :: rest => stripTrailingFracZeros (String.mk rest)
  | _ => stripTrailingFracZeros s

/-- Models a Go float64 value opaquely by its shortest decimal
rendering, the string produced by strconv.FormatFloat with format f and
precision -1 on 64 bits. The claims settled here concern which tag and
which rendering function the code attaches to a float, never float
arithmetic, so this representation is faithful for them. -/
structure GoFloat where
  render : String
deriving DecidableEq

/-- Models strconv.ParseFloat(s, 64): syntactic check, and the resulting
double is represented by the canonicalized literal text. Exact for the
short decimal literals that arise in this development. -/
def goParseFloat64 (s : String) : Except Err GoFloat :=
  if floatTextOK s then .ok ⟨canonFloatText s⟩
  else .error "strconv.ParseFloat: parsing failed"

/-- Integer literal syntax used by the blank-tag resolver model. -/
def intTextOK (s : String) : Bool :=
  match s.toList with
  | '+' :: rest => !rest.isEmpty && rest.all Char.isDigit
  | '-' :: rest => !rest.isEmpty && rest.all Char.isDigit
  | cs => !cs.isEmpty && cs.all Char.isDigit

/-- Models the resolve function of gopkg.in/yaml.v3 on an untagged plain
scalar, restricted to the literal forms that occur in this development:
the null and bool literal sets, then decimal int and float shapes, and
the string tag otherwise. The only value the theorems evaluate it on is
the text null, where it is exact. -/
def resolveBlankTagScalar (v : String) : String :=
  match v with
  | "" | "~" | "null" | "Null" | "NULL" => "!!null"
  | "true" | "True" | "TRUE" | "false" | "False" | "FALSE" => "!!bool"
  | _ =>
    if intTextOK v then "!!int"
    else if floatTextOK v then "!!float"
    else "!!str"

/-- The node kinds of gopkg.in/yaml.v3; zeroKind stands for the zero
value of the Go Kind field (any value outside the five named ones). -/
inductive YamlKind where
  | documentNode
  | sequenceNode
  | mappingNode
  | scalarNode
  | aliasNode
  | zeroKind
deriving DecidableEq

/-- Models yaml.Node of gopkg.in/yaml.v3. quotedStyle abstracts the
Style bitmask: true when any of the quoted or block style bits is set.
aliasTo models the Alias pointer field (none for a nil pointer); an
inductive value cannot alias a sibling, which matches the walk of the
code, since the walk follows the pointer eagerly. -/
inductive YamlNode where
  | mk (kind : YamlKind) (quotedStyle : Bool) (tag : String) (value : String)
      (content : List YamlNode) (aliasTo : Option YamlNode)

def YamlNode.kind : YamlNode → YamlKind
  | .mk k _ _ _ _ _ => k

def YamlNode.quotedStyle : YamlNode → Bool
  | .mk _ q _ _ _ _ => q

def YamlNode.tag : YamlNode → String
  | .mk _ _ t _ _ _ => t

def YamlNode.value : YamlNode → String
  | .mk _ _ _ v _ _ => v

def YamlNode.content : YamlNode → List YamlNode
  | .mk _ _ _ _ c _ => c

def YamlNode.aliasTo : YamlNode → Option YamlNode
  | .mk _ _ _ _ _ a => a

/-- Models the indicatedString helper of gopkg.in/yaml.v3. -/
def YamlNode.isIndicatedString (n : YamlNode) : Bool :=
  if n.kind = .scalarNode then
    if shortTagOf n.tag = "!!str" then true
    else if (n.tag = "" ∨ n.tag = "!") ∧ n.quotedStyle = true then true
    else false
  else false

/-- Models the ShortTag method of yaml.Node, recursing through the
alias target. -/
def yamlShortTag : YamlNode → String
  | n@(.mk _ _ _ _ _ aliasT) =>
    if n.isIndicatedString then "!!str"
    else if n.tag = "" ∨ n.tag = "!" then
      match n.kind with
      | .mappingNode => "!!map"
      | .sequenceNode => "!!seq"
      | .aliasNode =>
        match aliasT with
        | some t => yamlShortTag t
        | none => ""
      | .scalarNode => resolveBlankTagScalar n.value
      | _ => ""
    else shortTagOf n.tag

/-- Models the LongTag method of yaml.Node, the accessor through which
the code reads every tag. -/
def YamlNode.longTag (n : YamlNode) : String :=
  longTagOf (yamlShortTag n)

/-- Keys of a Go map with interface-typed keys, one constructor per
dynamic type the key formatter of transformData dispatches on. -/
inductive GoKey where
  | kstring (s : String)
  | kuint (v : Nat)
  | kuint8 (v : Nat)
  | kuint16 (v : Nat)
  | kuint32 (v : Nat)
  | kuint64 (v : Nat)
  | kint (v : Int)
  | kint8 (v : Int)
  | kint16 (v : Int)
  | kint32 (v : Int)
  | kint64 (v : Int)
  | kbool (b : Bool)
  | kfloat64 (f : GoFloat)
deriving DecidableEq

/-- Models the Go interface values flowing through the converter, one
constructor per dynamic type the code dispatches on. mapSlice is a
swag.JSONMapSlice (held as its ordered list of key and value pairs),
sliceItem a swag.JSONSliceItem, ptrInterface a non-nil pointer to an
interface value (the code only ever forms such a pointer with an
address-of expression), mapString an unordered Go map with string keys
(held in some iteration order), mapAny an unordered Go map with
interface keys, and ynode or ynodePtr a yaml.Node value or pointer. A
nil interface is the constructor null. -/
inductive GoValue where
  | str (s : String)
  | int64 (i : Int)
  | uint64 (u : Nat)
  | float64 (f : GoFloat)
  | bool (b : Bool)
  | null
  | mapSlice (entries : List (String × GoValue))
  | arr (elems : List GoValue)
  | sliceItem (v : GoValue)
  | ptrInterface (v : GoValue)
  | mapString (entries : List (String × GoValue))
  | mapAny (entries : List (GoKey × GoValue))
  | ynode (n : YamlNode)
  | ynodePtr (n : YamlNode)

/-- The ordered document model: JSONMapSlice is an ordered list of
JSONMapItem records; the Key field is the first component, the Value
field the second. -/
abbrev JSONMapSlice := List (String × GoValue)

/-- The Go type name of a value, as the %T format verb renders it,
used in the error texts of the code. -/
def goTypeName : GoValue → String
  | .str _ => "string"
  | .int64 _ => "int64"
  | .uint64 _ => "uint64"
  | .float64 _ => "float64"
  | .bool _ => "bool"
  | .null => "<nil>"
  | .mapSlice _ => "swag.JSONMapSlice"
  | .arr _ => "[]interface \x7b\x7d"
  | .sliceItem _ => "swag.JSONSliceItem"
  | .ptrInterface _ => "*interface \x7b\x7d"
  | .mapString _ => "map[string]interface \x7b\x7d"
  | .mapAny _ => "map[interface \x7b\x7d]interface \x7b\x7d"
  | .ynode _ => "yaml.Node"
  | .ynodePtr _ => "*yaml.Node"

/-- Models the reflect-based isNil helper: a nil interface is nil. The
pointers the code forms are address-of expressions and never nil, and no
claim distinguishes a nil slice or map from an empty one, so those are
not modelled separately. -/
def isNil : GoValue → Bool
  | .null => true
  | _ => false

/-- Models yamlScalar: dispatch on the resolved long tag of a scalar
node, parsing the raw text under that tag. -/
def yamlScalar (node : YamlNode) : Except Err GoValue :=
  if node.longTag = yamlStringScalar then .ok (.str node.value)
  else if node.longTag = yamlBoolScalar then
    match goParseBool node.value with
    | .ok b => .ok (.bool b)
    | .error e => .error ("unable to process scalar node, expecting bool content: " ++ e)
  else if node.longTag = yamlIntScalar then
    match goParseInt64 node.value with
    | .ok i => .ok (.int64 i)
    | .error e => .error ("unable to process scalar node, expecting integer content: " ++ e)
  else if node.longTag = yamlFloatScalar then
    match goParseFloat64 node.value with
    | .ok f => .ok (.float64 f)
    | .error e => .error ("unable to process scalar node, expecting float content: " ++ e)
  else if node.longTag = yamlTimestamp then .ok (.str node.value)
  else if node.longTag = yamlNull then .ok .null
  else .error ("YAML tag " ++ node.longTag ++ " is not supported")

/-- Models yamlStringScalarC: a mapping key must be a scalar node whose
resolved tag is the string, int or float tag; its raw text is returned. -/
def yamlStringScalarC (node : YamlNode) : Except Err String :=
  if node.kind = .scalarNode then
    if node.longTag = yamlStringScalar ∨ node.longTag = yamlIntScalar ∨ node.longTag = yamlFloatScalar
    then .ok node.value
    else .error ("YAML tag " ++ node.longTag ++ " is not supported as map key")
  else .error "expecting a string scalar"

/-- Models the pair loop of yamlMapping over the flat content list of a
mapping node, parameterized by the node walker used on values. The Go
loop indexes the content two slots at a time; on an odd-length content
list (which the yaml parser never produces for a mapping) the Go code
would panic with an index out of range, modelled here as an error. -/
def yamlMappingC (walk : YamlNode → Except Err GoValue) :
    List YamlNode → Except Err (List (String × GoValue))
  | [] => .ok []
  | k :: v :: rest =>
    match yamlStringScalarC k with
    | .error e => .error ("unable to decode YAML map key: " ++ e)
    | .ok key =>
      match walk v with
      | .error e =>
        .error ("unable to process YAML map value for key " ++ key ++ ": " ++ e)
      | .ok value =>
        match yamlMappingC walk rest with
        | .error e => .error e
        | .ok tail => .ok ((key, value) :: tail)
  | _ :: [] => .error "panic: index out of range in yamlMapping"

/-- Models the element loop of yamlSequence, parameterized by the node
walker. -/
def yamlSequenceC (walk : YamlNode → Except Err GoValue) :
    List YamlNode → Except Err (List GoValue)
  | [] => .ok []
  | c :: rest =>
    match walk c with
    | .error e => .error ("unable to decode YAML sequence value: " ++ e)
    | .ok v =>
      match yamlSequenceC walk rest with
      | .error e => .error e
      | .ok tail => .ok (v :: tail)

/-- Models yamlDocument: a document node must hold exactly one child,
which is walked. -/
def yamlDocumentC (walk : YamlNode → Except Err GoValue) (content : List YamlNode) :
    Except Err GoValue :=
  match content with
  | [c] => walk c
  | _ => .error "unexpected YAML Document node content length"

/-- Models yamlNode, the kind dispatch of the tree walker. The hooks
parameter of the Go code is an empty extension point (the hook types
have no behavior yet) and is dropped. -/
def yamlNode : Nat → YamlNode → Except Err GoValue
  | 0, _ => .error "recursion depth exhausted walking the YAML document"
  | f + 1, root =>
    match root.kind with
    | .documentNode => yamlDocumentC (yamlNode f) root.content
    | .sequenceNode => (yamlSequenceC (yamlNode f) root.content).map GoValue.arr
    | .mappingNode => (yamlMappingC (yamlNode f) root.content).map GoValue.mapSlice
    | .scalarNode => yamlScalar root
    | .aliasNode =>
      match root.aliasTo with
      | some t => yamlNode f t
      | none => .error "nil alias target"
    | .zeroKind => .error "unsupported YAML node type"

/-- Models BytesToYAMLDoc after the external yaml.Unmarshal step: the
parsed top-level unit must be a document node with exactly one child of
mapping kind, and the returned interface value is the pointer to that
document node. Byte acquisition and parsing live in the external yaml
library and are outside this embedding. -/
def BytesToYAMLDoc (document : YamlNode) : Except Err GoValue :=
  if document.kind = .documentNode then
    match document.content with
    | [c] =>
      if c.kind = .mappingNode then .ok (.ynodePtr document)
      else .error "only YAML documents that are objects are supported"
    | _ => .error "only YAML documents that are objects are supported"
  else .error "only YAML documents that are objects are supported"

/-- The key scalar node that the reverse converter emits for every map
or slice key: scalar kind, string tag, the key as raw text. -/
def strKeyNode (k : String) : YamlNode :=
  .mk .scalarNode false yamlStringScalar k [] none

/-- Models the entry loop of the JSONMapSlice case of json2yaml,
parameterized by the converter used on entry values. Faithfully to the
source, the recursive conversion receives the address of the Value
field, a pointer-to-interface value, not the value itself. -/
def json2yamlObjC (conv : GoValue → Except Err YamlNode) :
    List (String × GoValue) → Except Err (List YamlNode)
  | [] => .ok []
  | (k, v) :: rest =>
    match conv (GoValue.ptrInterface v) with
    | .error e => .error e
    | .ok childNode =>
      match json2yamlObjC conv rest with
      | .error e => .error e
      | .ok tail => .ok (strKeyNode k :: childNode :: tail)

/-- Byte-order comparison of character lists. UTF-8 byte order agrees
with code-point order, so this is exactly the ordering used by the
sort.Strings call of the Go code. -/
def lexLe : List Char → List Char → Bool
  | [], _ => true
  | _ :: _, [] => false
  | a :: as, b :: bs =>
    if a.toNat < b.toNat then true
    else if b.toNat < a.toNat then false
    else lexLe as bs

/-- Byte-order comparison of strings. -/
def strLe (a b : String) : Bool := lexLe a.toList b.toList

/-- Models sort.Strings. Go uses an unstable comparison sort, but on the
duplicate-free key list of a Go map every correct comparison sort yields
the same, uniquely determined output, so insertion sort is a faithful
model. -/
def sortStrings (l : List String) : List String :=
  List.insertionSort (fun a b => strLe a b = true) l

/-- Models the sorted-key loop of the generic string map case of
json2yaml: the value of each sorted key is fetched from the map and
converted. A key taken from the key list of the map is always present in
it; the none branch is unreachable and reported as an error. -/
def json2yamlSortedC (conv : GoValue → Except Err YamlNode)
    (entries : List (String × GoValue)) :
    List String → Except Err (List YamlNode)
  | [] => .ok []
  | k :: ks =>
    match entries.lookup k with
    | none => .error "unreachable: key missing from its own map"
    | some v =>
      match conv v with
      | .error e => .error e
      | .ok childNode =>
        match json2yamlSortedC conv entries ks with
        | .error e => .error e
        | .ok tail => .ok (strKeyNode k :: childNode :: tail)

/-- Models json2yaml, the reverse converter from interchange values to
yaml nodes, with an explicit recursion budget. The branch order follows
the type switch of the source; the final branch is its default case. -/
def json2yaml : Nat → GoValue → Except Err YamlNode
  | 0, _ => .error "recursion depth exhausted converting to YAML"
  | f + 1, item =>
    if isNil item then .ok (.mk .scalarNode false "" "null" [] none)
    else
      match item with
      | .mapSlice val =>
        (json2yamlObjC (json2yaml f) val).map
          (fun nodes => .mk .mappingNode false "" "" nodes none)
      | .mapString val =>
        (json2yamlSortedC (json2yaml f) val (sortStrings (val.map Prod.fst))).map
          (fun nodes => .mk .mappingNode false "" "" nodes none)
      | .arr val =>
        (val.mapM (fun x => json2yaml f x)).map
          (fun nodes => .mk .sequenceNode false "" "" nodes none)
      | .str s => .ok (.mk .scalarNode false yamlStringScalar s [] none)
      | .float64 fl => .ok (.mk .scalarNode false yamlFloatScalar fl.render [] none)
      | .int64 i => .ok (.mk .scalarNode false yamlIntScalar (toString i) [] none)
      | .uint64 u => .ok (.mk .scalarNode false yamlIntScalar (toString u) [] none)
      | .bool b =>
        .ok (.mk .scalarNode false yamlBoolScalar (if b then "true" else "false") [] none)
      | other => .error ("unhandled type: " ++ goTypeName other)

/-- Models the entry loop of MarshalYAML: a key scalar node and the
converted value node for every entry, in stored order. Unlike the
nested object case inside json2yaml, the top level passes the interface
value of the entry itself to the converter. -/
def marshalYAMLItems (conv : GoValue → Except Err YamlNode) :
    List (String × GoValue) → Except Err (List YamlNode)
  | [] => .ok []
  | (k, v) :: rest =>
    match conv v with
    | .error e => .error e
    | .ok nn =>
      match marshalYAMLItems conv rest with
      | .error e => .error e
      | .ok tail => .ok (strKeyNode k :: nn :: tail)

/-- Models MarshalYAML up to the final call into the external yaml
serializer: the document node handed to yaml.Marshal, wrapping one
mapping node holding the emitted key and value nodes. -/
def MarshalYAML (f : Nat) (s : JSONMapSlice) : Except Err YamlNode :=
  (marshalYAMLItems (json2yaml f) s).map
    (fun nodes =>
      .mk .documentNode false "" "" [.mk .mappingNode false "" "" nodes none] none)

/-- The Go type name of a map key value, as the %T verb renders it. -/
def goKeyTypeName : GoKey → String
  | .kstring _ => "string"
  | .kuint _ => "uint"
  | .kuint8 _ => "uint8"
  | .kuint16 _ => "uint16"
  | .kuint32 _ => "uint32"
  | .kuint64 _ => "uint64"
  | .kint _ => "int"
  | .kint8 _ => "int8"
  | .kint16 _ => "int16"
  | .kint32 _ => "int32"
  | .kint64 _ => "int64"
  | .kbool _ => "bool"
  | .kfloat64 _ => "float64"

/-- Models the key formatter closure of transformData (named format in
the source): a string key passes through, an integer key of any width
is rendered in base 10, and any other key type is an error. -/
def formatKey : GoKey → Except Err String
  | .kstring s => .ok s
  | .kuint v => .ok (toString v)
  | .kuint8 v => .ok (toString v)
  | .kuint16 v => .ok (toString v)
  | .kuint32 v => .ok (toString v)
  | .kuint64 v => .ok (toString v)
  | .kint v => .ok (toString v)
  | .kint8 v => .ok (toString v)
  | .kint16 v => .ok (toString v)
  | .kint32 v => .ok (toString v)
  | .kint64 v => .ok (toString v)
  | k => .error ("unexpected map key type, got: " ++ goKeyTypeName k)

/-- Models the entry loop of the generic interface-keyed map case of
transformData, parameterized by the recursive transform applied to the
values. A Go map has no observable iteration order; the entries list
records one such order. -/
def transformObjC (trans : GoValue → Except Err GoValue) :
    List (GoKey × GoValue) → Except Err (List (String × GoValue))
  | [] => .ok []
  | (ke, va) :: rest =>
    match formatKey ke with
    | .error e => .error e
    | .ok k =>
      match trans va with
      | .error e => .error e
      | .ok v =>
        match transformObjC trans rest with
        | .error e => .error e
        | .ok tail => .ok ((k, v) :: tail)

/-- Models transformData, the key normalizer: yaml nodes are walked,
generic interface-keyed maps have their keys formatted and their values
transformed, slices recurse element-wise, and every other value passes
through unchanged (the final branch is the fallthrough of the source). -/
def transformData : Nat → GoValue → Except Err GoValue
  | 0, _ => .error "recursion depth exhausted transforming data"
  | f + 1, input =>
    match input with
    | .ynode n => yamlNode f n
    | .ynodePtr n => yamlNode f n
    | .mapAny entries => (transformObjC (transformData f) entries).map GoValue.mapSlice
    | .arr elems => (elems.mapM (fun x => transformData f x)).map GoValue.arr
    | _ => .ok input

/-- The processor type of the document pipeline: document in, document
or error out. -/
abbrev DocProcessor := GoValue → Except Err GoValue

/-- The option accumulator of the pipeline; a DocOption mutates it. -/
structure docOptions where
  processors : List DocProcessor

/-- A document option, modelled functionally. -/
abbrev DocOption := docOptions → docOptions

/-- Models WithDocProcessor: appends one processor. -/
def WithDocProcessor (processor : DocProcessor) : DocOption :=
  fun o => { o with processors := o.processors ++ [processor] }

/-- The processor installed by WithXOrderProcessor(true). Every branch
for a supported document type currently returns a nil document together
with a nil error (the reordering itself is an unimplemented TODO in the
source); an unsupported document type is an error. -/
def xOrderDocProcessor : DocProcessor := fun doc =>
  match doc with
  | .ynode _ => .ok .null
  | .ynodePtr _ => .ok .null
  | .mapSlice _ => .ok .null
  | other =>
    .error ("XOrder processor only support yamlv3.Node and swag.JSONMapSlice input documents, got: "
      ++ goTypeName other)

/-- Models WithXOrderProcessor: disabled, a do-nothing option; enabled,
registration of the XOrder processor. -/
def WithXOrderProcessor (enabled : Bool) : DocOption :=
  if !enabled then fun o => o
  else WithDocProcessor xOrderDocProcessor

/-- Models docOptionsWithDefaults: the options are applied in order to
an empty accumulator. -/
def docOptionsWithDefaults (opts : List DocOption) : docOptions :=
  opts.foldl (fun o apply => apply o) ⟨[]⟩

/-- The processor loop of ApplyTransforms: each processor receives the
result of the previous one; a failure returns that error at once. -/
def applyProcessors : List DocProcessor → GoValue → Except Err GoValue
  | [], doc => .ok doc
  | p :: ps, doc =>
    match p doc with
    | .ok next => applyProcessors ps next
    | .error e => .error e

/-- Models docOptions.ApplyTransforms. -/
def docOptions.ApplyTransforms (o : docOptions) (inputDoc : GoValue) :
    Except Err GoValue :=
  applyProcessors o.processors inputDoc

/-- JSON string escaping of the writer model, covering the escapes that
can arise in this development. -/
def escapeJSONChars : List Char → List Char
  | [] => []
  | c :: cs =>
    if c = '"' then '\\' :: '"' :: escapeJSONChars cs
    else if c = '\\' then '\\' :: '\\' :: escapeJSONChars cs
    else if c = '\n' then '\\' :: 'n' :: escapeJSONChars cs
    else if c = '\t' then '\\' :: 't' :: escapeJSONChars cs
    else if c = '\r' then '\\' :: 'r' :: escapeJSONChars cs
    else c :: escapeJSONChars cs

/-- A quoted, escaped JSON string token, as the easyJSON writer emits. -/
def quoteJSONString (s : String) : String :=
  String.mk ('"' :: (escapeJSONChars s.toList ++ ['"']))

/-- Modelled from the spec: WriteJSON, the serialization of an interface
value to interchange bytes, lives in a source file that is not part of
src (only its callers are). Per the Forward Converter contract of the
spec, entries of an ordered document are written in stored order inside
an object delimiter pair, lists recurse element-wise, and scalars become
the corresponding JSON tokens; the ordered-document branch coincides
with the model of JSONMapSlice.MarshalEasyJSON, which is in src. Values
never serialized by any theorem here (yaml nodes, generic maps, slice
items, interface pointers) are rendered as a null token. -/
def WriteJSONValue : Nat → GoValue → String
  | 0, _ => ""
  | f + 1, v =>
    match v with
    | .str s => quoteJSONString s
    | .int64 i => toString i
    | .uint64 u => toString u
    | .float64 fl => fl.render
    | .bool b => if b then "true" else "false"
    | .null => "null"
    | .arr xs => "[" ++ String.intercalate "," (xs.map (WriteJSONValue f)) ++ "]"
    | .mapSlice items =>
      "\x7b" ++
        String.intercalate ","
          (items.map (fun it => quoteJSONString it.1 ++ ":" ++ WriteJSONValue f it.2)) ++
        "\x7d"
    | _ => "null"

/-- Models JSONMapSlice.MarshalJSON and MarshalEasyJSON: an object
delimiter pair around the items, a comma between consecutive items, and
each item rendered by JSONMapItem.MarshalEasyJSON as the quoted key, a
colon, and WriteJSON of the value. -/
def MarshalJSONMapSlice (f : Nat) (s : JSONMapSlice) : String :=
  "\x7b" ++
    String.intercalate ","
      (s.map (fun it => quoteJSONString it.1 ++ ":" ++ WriteJSONValue f it.2)) ++
    "\x7d"

/-- Whitespace skipping of the lexer model. -/
def skipWs : List Char → List Char
  | c :: cs =>
    if c = ' ' ∨ c = '\t' ∨ c = '\n' ∨ c = '\r' then skipWs cs else c :: cs
  | [] => []

/-- Reads the remainder of a quoted JSON string after the opening quote,
handling the basic escapes (the unicode escape is not modelled; no
theorem uses it). Models the string reader of the jlexer. -/
def lexStringBody (acc : List Char) : List Char → Except Err (String × List Char)
  | '"' :: rest => .ok (String.mk acc.reverse, rest)
  | '\\' :: c :: rest =>
    if c = '"' then lexStringBody ('"' :: acc) rest
    else if c = '\\' then lexStringBody ('\\' :: acc) rest
    else if c = 'n' then lexStringBody ('\n' :: acc) rest
    else if c = 't' then lexStringBody ('\t' :: acc) rest
    else if c = 'r' then lexStringBody ('\r' :: acc) rest
    else if c = '/' then lexStringBody ('/' :: acc) rest
    else .error "unsupported escape in string literal"
  | c :: rest => lexStringBody (c :: acc) rest
  | [] => .error "unterminated string literal"

/-- Reads a quoted string token, as the raw string reader of the jlexer
does for object keys. -/
def lexQuotedKey (cs : List Char) : Except Err (String × List Char) :=
  match skipWs cs with
  | '"' :: rest => lexStringBody [] rest
  | _ => .error "expected string"

/-- Models WantColon of the jlexer: a colon must follow and is consumed. -/
def wantColon (cs : List Char) : Except Err (List Char) :=
  match skipWs cs with
  | ':' :: rest => .ok rest
  | _ => .error "expected colon"

/-- Models the separator discipline of the jlexer after a value: a comma
is consumed; a closing delimiter is tolerated and left in place. -/
def wantComma (cs : List Char) : Except Err (List Char) :=
  match skipWs cs with
  | ',' :: rest => .ok rest
  | '}' :: rest => .ok ('}' :: rest)
  | ']' :: rest => .ok (']' :: rest)
  | [] => .ok []
  | _ => .error "expected comma"

/-- Characters a JSON number token is made of. -/
def numChar (c : Char) : Bool :=
  c.isDigit || c = '-' || c = '+' || c = '.' || c = 'e' || c = 'E'

/-- Models the number path of the Interface method of the jlexer: the
token is parsed as a float64 (as encoding/json would), represented under
the rendering model of GoFloat. -/
def lexNumber (cs : List Char) : Except Err (GoValue × List Char) :=
  let tok := cs.takeWhile numChar
  if tok.isEmpty then .error "unexpected token"
  else if floatTextOK (String.mk tok) then
    .ok (.float64 ⟨canonFloatText (String.mk tok)⟩, cs.drop tok.length)
  else .error "invalid number literal"

/-- Object loop of the Interface method of the jlexer, producing a
generic string map (in encounter order); the closing brace is consumed
here, as the library does. -/
def lexIfaceObj (pv : List Char → Except Err (GoValue × List Char)) :
    Nat → List Char → Except Err (List (String × GoValue) × List Char)
  | 0, _ => .error "recursion depth exhausted in lexer"
  | f + 1, cs =>
    match skipWs cs with
    | '}' :: rest => .ok ([], rest)
    | _ => do
      let (k, r1) ← lexQuotedKey cs
      let r2 ← wantColon r1
      let (v, r3) ← pv r2
      match skipWs r3 with
      | ',' :: r4 => do
        let (fields, r5) ← lexIfaceObj pv f r4
        .ok ((k, v) :: fields, r5)
      | '}' :: r4 => .ok ([(k, v)], r4)
      | _ => .error "expected comma or closing brace"

/-- Array loop of the Interface method of the jlexer; the closing
bracket is consumed here, as the library does. -/
def lexIfaceArr (pv : List Char → Except Err (GoValue × List Char)) :
    Nat → List Char → Except Err (List GoValue × List Char)
  | 0, _ => .error "recursion depth exhausted in lexer"
  | f + 1, cs =>
    match skipWs cs with
    | ']' :: rest => .ok ([], rest)
    | _ => do
      let (v, r1) ← pv cs
      match skipWs r1 with
      | ',' :: r2 => do
        let (elems, r3) ← lexIfaceArr pv f r2
        .ok (v :: elems, r3)
      | ']' :: r2 => .ok ([v], r2)
      | _ => .error "expected comma or closing bracket"

/-- Models the Interface method of the jlexer: a JSON value decoded the
way the encoding/json package would decode into an interface value; in
particular every number becomes a float64, an object a generic string
map, an array an interface slice. -/
def lexInterface : Nat → List Char → Except Err (GoValue × List Char)
  | 0, _ => .error "recursion depth exhausted in lexer"
  | f + 1, cs =>
    match skipWs cs with
    | '"' :: rest => (lexStringBody [] rest).map (fun (s, r) => (GoValue.str s, r))
    | 't' :: 'r' :: 'u' :: 'e' :: rest => .ok (.bool true, rest)
    | 'f' :: 'a' :: 'l' :: 's' :: 'e' :: rest => .ok (.bool false, rest)
    | 'n' :: 'u' :: 'l' :: 'l' :: rest => .ok (.null, rest)
    | '{' :: rest => (lexIfaceObj (lexInterface f) f rest).map (fun (l, r) => (GoValue.mapString l, r))
    | '[' :: rest => (lexIfaceArr (lexInterface f) f rest).map (fun (l, r) => (GoValue.arr l, r))
    | other => lexNumber other

/-- Models the item loop of JSONMapSlice.unmarshalEasyJSONWithHooks: one
JSONMapItem is decoded while the next token is not a closing brace.
Faithfully to the source, the closing brace is never consumed by this
loop. -/
def unmarshalSliceItems (pItem : List Char → Except Err ((String × GoValue) × List Char)) :
    Nat → List Char → Except Err (List (String × GoValue) × List Char)
  | 0, _ => .error "recursion depth exhausted in lexer"
  | f + 1, cs =>
    match skipWs cs with
    | '}' :: rest => .ok ([], '}' :: rest)
    | [] => .error "unexpected end of input"
    | _ => do
      let (item, r1) ← pItem cs
      let (rest, r2) ← unmarshalSliceItems pItem f r1
      .ok (item :: rest, r2)

/-- Models JSONMapItem.unmarshalEasyJSONWithHooks: the raw key string, a
colon, then the value: a nested object is decoded by the item loop of
JSONMapSlice just above (whose closing brace, faithfully to the source,
stays unconsumed), a nested array becomes a JSONSliceItem, anything else
is decoded by the Interface method of the lexer; a separator is then
required. The JSONSliceItem codec itself is declared in a source file
that is not part of src; modelled from the spec, a list value is decoded
element-wise. -/
def unmarshalMapItem : Nat → List Char → Except Err ((String × GoValue) × List Char)
  | 0, _ => .error "recursion depth exhausted in lexer"
  | f + 1, cs => do
    let (key, r1) ← lexQuotedKey cs
    let r2 ← wantColon r1
    match skipWs r2 with
    | '{' :: r3 => do
      let (inner, r4) ← unmarshalSliceItems (unmarshalMapItem f) f r3
      let r5 ← wantComma r4
      .ok ((key, GoValue.mapSlice inner), r5)
    | '[' :: r3 => do
      let (elems, r4) ← lexIfaceArr (lexInterface f) f r3
      let r5 ← wantComma r4
      .ok ((key, GoValue.sliceItem (GoValue.arr elems)), r5)
    | _ => do
      let (v, r3) ← lexInterface f r2
      let r4 ← wantComma r3
      .ok ((key, v), r4)

/-- Models JSONMapSlice.UnmarshalJSON: a lexer over the bytes, the
easyJSON decoding of the slice, and the final lexer error check. A null
token leaves the nil slice untouched, modelled as the empty slice;
trailing unconsumed input is not an error, as in the library. -/
def UnmarshalJSONMapSlice (f : Nat) (s : String) : Except Err JSONMapSlice :=
  match skipWs s.toList with
  | 'n' :: 'u' :: 'l' :: 'l' :: _ => .ok []
  | '{' :: rest =>
    (unmarshalSliceItems (unmarshalMapItem f) f rest).map (fun (items, _) => items)
  | _ => .error "expected opening brace"

/-- The key and value node pairs of the flat content list of a mapping
node, two slots at a time (an odd trailing node has no pair). -/
def chunkPairs : List YamlNode → List (YamlNode × YamlNode)
  | k :: v :: rest => (k, v) :: chunkPairs rest
  | _ => []

/-- The key texts at the even positions of the flat content list of a
mapping node. -/
def contentKeys : List YamlNode → List String
  | k :: _ :: rest => k.value :: contentKeys rest
  | _ => []

/-- Key types the normalizer accepts: strings and integers of any width. -/
def GoKey.isIntOrString : GoKey → Bool
  | .kstring _ => true
  | .kuint _ | .kuint8 _ | .kuint16 _ | .kuint32 _ | .kuint64 _ => true
  | .kint _ | .kint8 _ | .kint16 _ | .kint32 _ | .kint64 _ => true
  | .kbool _ => false
  | .kfloat64 _ => false

/-- The canonical text of an accepted key: the string itself, or the
base-10 rendering of the integer (empty for rejected key types, which
never reach it). -/
def GoKey.canonicalText : GoKey → String
  | .kstring s => s
  | .kuint v | .kuint8 v | .kuint16 v | .kuint32 v | .kuint64 v => toString v
  | .kint v | .kint8 v | .kint16 v | .kint32 v | .kint64 v => toString v
  | .kbool _ => ""
  | .kfloat64 _ => ""

/-- Sample processor overwriting the document with the string x. -/
def procSetX : DocProcessor := fun _ => .ok (.str "x")

/-- Sample processor that always fails. -/
def procBoom : DocProcessor := fun _ => .error "boom"

/-- Sample processor overwriting the document with the string y. -/
def procSetY : DocProcessor := fun _ => .ok (.str "y")

/-- The duplicate-key mapping content of the witness below, the parse
tree of a mapping with the key a twice, bound to 1 and then 2. -/
def dupKeyMappingContent : List YamlNode :=
  [.mk .scalarNode false yamlStringScalar "a" [] none,
   .mk .scalarNode false yamlIntScalar "1" [] none,
   .mk .scalarNode false yamlStringScalar "a" [] none,
   .mk .scalarNode false yamlIntScalar "2" [] none]

theorem foldl_withDocProcessor (ps : List DocProcessor) :
    ∀ o : docOptions,
      ((ps.map WithDocProcessor).foldl (fun o apply => apply o) o).processors
        = o.processors ++ ps := by
  induction ps with
  | nil => intro o; simp
  | cons p t ih =>
    intro o
    simp [List.foldl, WithDocProcessor, ih]

theorem applyProcessors_append_error :
    ∀ (ps1 : List DocProcessor) (input d : GoValue),
      applyProcessors ps1 input = .ok d →
      ∀ (p : DocProcessor) (ps2 : List DocProcessor) (e : Err), p d = .error e →
      applyProcessors (ps1 ++ p :: ps2) input = .error e := by
  intro ps1
  induction ps1 with
  | nil =>
    intro input d h p ps2 e hp
    obtain rfl : input = d := by simpa [applyProcessors] using h
    simp [applyProcessors, hp]
  | cons q t ih =>
    intro input d h p ps2 e hp
    cases hq : q input with
    | error e2 => simp [applyProcessors, hq] at h
    | ok next =>
      simp only [List.cons_append, applyProcessors, hq] at h ⊢
      exact ih next d h p ps2 e hp

/-- C5: the transform pipeline applies processors strictly in
registration order (WithDocProcessor appends, the options fold keeps the
order, and the run feeds each processor the result of the previous one);
a failing processor surfaces its error with no later processor applied;
an empty pipeline returns the input document unchanged. -/
theorem applyTransforms_pipeline_spec :
    (∀ input : GoValue, docOptions.ApplyTransforms ⟨[]⟩ input = .ok input)
    ∧ (∀ ps : List DocProcessor,
        (docOptionsWithDefaults (ps.map WithDocProcessor)).processors = ps)
    ∧ (∀ (p : DocProcessor) (ps : List DocProcessor) (input : GoValue),
        applyProcessors (p :: ps) input =
          match p input with
          | .ok next => applyProcessors ps next
          | .error e => .error e)
    ∧ (∀ (ps1 : List DocProcessor) (p : DocProcessor) (ps2 : List DocProcessor)
        (input d : GoValue) (e : Err),
        applyProcessors ps1 input = .ok d → p d = .error e →
        applyProcessors (ps1 ++ p :: ps2) input = .error e) := by
  refine ⟨fun input => rfl, fun ps => ?_, fun p ps input => rfl, ?_⟩
  · simpa [docOptionsWithDefaults] using foldl_withDocProcessor ps ⟨[]⟩
  · intro ps1 p ps2 input d e h hp
    exact applyProcessors_append_error ps1 input d h p ps2 e hp

theorem applyTransforms_pipeline_spec_witness :
    applyProcessors [procSetX, procBoom, procSetY] GoValue.null = .error "boom" :=
  applyTransforms_pipeline_spec.2.2.2 [procSetX] procBoom [procSetY]
    GoValue.null (GoValue.str "x") "boom" rfl rfl

/-- C10: WithXOrderProcessor(true) registers exactly the XOrder
processor, and that processor maps every document of dynamic type
yaml.Node, pointer to yaml.Node, or JSONMapSlice to a nil document with
a nil error: enabling the option replaces the document with nothing
rather than reordering it. -/
theorem withXOrderProcessor_true_yields_nil_document :
    WithXOrderProcessor true = WithDocProcessor xOrderDocProcessor
    ∧ (∀ o : docOptions,
        (WithXOrderProcessor true o).processors = o.processors ++ [xOrderDocProcessor])
    ∧ (∀ n : YamlNode, xOrderDocProcessor (.ynode n) = .ok .null)
    ∧ (∀ n : YamlNode, xOrderDocProcessor (.ynodePtr n) = .ok .null)
    ∧ (∀ s : JSONMapSlice, xOrderDocProcessor (.mapSlice s) = .ok .null) :=
  ⟨rfl, fun _ => rfl, fun _ => rfl, fun _ => rfl, fun _ => rfl⟩

/-- C3: the scalar tags of the reverse converter are assigned by the
runtime type of the value: a string gets the string tag with its own
text, a signed or unsigned 64-bit integer the integer tag with base-10
text, a float64 the float tag with the shortest round-trippable
rendering (the rendering model of GoFloat), a bool the boolean tag with
the text true or false, and a nil value a scalar node whose resolved
tag, under the LongTag accessor through which every consumer reads tags,
is the null tag. -/
theorem json2yaml_scalar_tags_by_runtime_type :
    (∀ (f : Nat) (s : String),
      json2yaml (f + 1) (.str s) =
        .ok (.mk .scalarNode false yamlStringScalar s [] none))
    ∧ (∀ (f : Nat) (i : Int),
      json2yaml (f + 1) (.int64 i) =
        .ok (.mk .scalarNode false yamlIntScalar (toString i) [] none))
    ∧ (∀ (f : Nat) (u : Nat),
      json2yaml (f + 1) (.uint64 u) =
        .ok (.mk .scalarNode false yamlIntScalar (toString u) [] none))
    ∧ (∀ (f : Nat) (x : GoFloat),
      json2yaml (f + 1) (.float64 x) =
        .ok (.mk .scalarNode false yamlFloatScalar x.render [] none))
    ∧ (∀ (f : Nat) (b : Bool),
      json2yaml (f + 1) (.bool b) =
        .ok (.mk .scalarNode false yamlBoolScalar (if b then "true" else "false") [] none))
    ∧ (∀ f : Nat,
      json2yaml (f + 1) .null = .ok (.mk .scalarNode false "" "null" [] none))
    ∧ YamlNode.longTag (.mk .scalarNode false "" "null" [] none) = yamlNull :=
  ⟨fun _ _ => rfl, fun _ _ => rfl, fun _ _ => rfl, fun _ _ => rfl, fun _ _ => rfl,
    fun _ => rfl, rfl⟩

/-- C2 (failing evaluation): the reverse converter does not convert a
nested ordered document recursively: json2yaml hands itself the address
of the Value field, a pointer-to-interface value matching no case of its
type switch, so any ordered document holding a non-empty nested ordered
document fails with an unhandled-type error. Exercised on the json2yaml
entry itself and through MarshalYAML. -/
theorem json2yaml_nested_mapSlice_fails :
    json2yaml 9 (.mapSlice [("b", .str "c")]) =
      .error "unhandled type: *interface \x7b\x7d"
    ∧ MarshalYAML 9 [("a", .mapSlice [("b", .str "c")])] =
      .error "unhandled type: *interface \x7b\x7d" :=
  ⟨rfl, rfl⟩

set_option maxRecDepth 8000 in
/-- C1 (failing evaluation): marshalling the ordered document holding
the int64 payload 42 under key a, then unmarshalling the produced bytes,
yields the float64 payload 42: the scalar path of the decoder reads
numbers through the Interface method of the jlexer, which parses every
number as a float64, so integers do not remain integers across the
round trip (entry order and the key are preserved). -/
theorem marshal_roundtrip_int_becomes_float :
    MarshalJSONMapSlice 9 [("a", GoValue.int64 42)] = "\x7b\"a\":42\x7d"
    ∧ UnmarshalJSONMapSlice 9 "\x7b\"a\":42\x7d" =
        .ok [("a", GoValue.float64 ⟨"42"⟩)]
    ∧ GoValue.float64 ⟨"42"⟩ ≠ GoValue.int64 42 :=
  ⟨rfl, rfl, fun h => GoValue.noConfusion h⟩

/-- C6: the top-level parse entry point returns a document value exactly
when the parsed unit is a document node with exactly one child of
mapping kind; any other top-level shape (sequence or scalar root,
multi-child or childless document) returns an error and no document
value; a successful call returns the pointer to the document node. -/
theorem bytesToYAMLDoc_object_root_only :
    ∀ d : YamlNode,
      ((∃ v, BytesToYAMLDoc d = .ok v) ↔
        (d.kind = .documentNode ∧ ∃ c, d.content = [c] ∧ c.kind = .mappingNode))
      ∧ (∀ v, BytesToYAMLDoc d = .ok v → v = .ynodePtr d) := by
  intro d
  constructor
  · constructor
    · rintro ⟨v, hv⟩
      unfold BytesToYAMLDoc at hv
      by_cases hk : d.kind = .documentNode
      · rw [if_pos hk] at hv
        cases hcc : d.content with
        | nil => rw [hcc] at hv; simp at hv
        | cons c rest =>
          cases rest with
          | nil =>
            rw [hcc] at hv
            by_cases hm : c.kind = .mappingNode
            · exact ⟨hk, c, rfl, hm⟩
            · simp [hm] at hv
          | cons c2 rest2 => rw [hcc] at hv; simp at hv
      · rw [if_neg hk] at hv; simp at hv
    · rintro ⟨hk, c, hc, hm⟩
      exact ⟨.ynodePtr d, by unfold BytesToYAMLDoc; simp [hk, hc, hm]⟩
  · intro v hv
    unfold BytesToYAMLDoc at hv
    by_cases hk : d.kind = .documentNode
    · rw [if_pos hk] at hv
      cases hcc : d.content with
      | nil => rw [hcc] at hv; simp at hv
      | cons c rest =>
        cases rest with
        | nil =>
          rw [hcc] at hv
          by_cases hm : c.kind = .mappingNode
          · simp [hm] at hv
            exact hv.symm
          · simp [hm] at hv
        | cons c2 rest2 => rw [hcc] at hv; simp at hv
    · rw [if_neg hk] at hv; simp at hv

theorem bytesToYAMLDoc_object_root_only_witness :
    ∃ v, BytesToYAMLDoc
      (.mk .documentNode false "" "" [.mk .mappingNode false "" "" [] none] none)
      = .ok v :=
  ((bytesToYAMLDoc_object_root_only _).1).mpr ⟨rfl, _, rfl, rfl⟩

theorem yamlMappingC_ok_forall2 (walk : YamlNode → Except Err GoValue) :
    ∀ (content : List YamlNode) (items : List (String × GoValue)),
      yamlMappingC walk content = .ok items →
      List.Forall₂
        (fun (kv : YamlNode × YamlNode) (it : String × GoValue) =>
          yamlStringScalarC kv.1 = .ok it.1 ∧ walk kv.2 = .ok it.2)
        (chunkPairs content) items
  | [], items, h => by
    simp only [yamlMappingC, Except.ok.injEq] at h
    subst h
    exact List.Forall₂.nil
  | k :: v :: rest, items, h => by
    cases hk : yamlStringScalarC k with
    | error e => simp [yamlMappingC, hk] at h
    | ok key =>
      cases hv : walk v with
      | error e => simp [yamlMappingC, hk, hv] at h
      | ok value =>
        cases ht : yamlMappingC walk rest with
        | error e => simp [yamlMappingC, hk, hv, ht] at h
        | ok tail =>
          have h2 : (key, value) :: tail = items := by
            simpa [yamlMappingC, hk, hv, ht] using h
          subst h2
          exact List.Forall₂.cons ⟨hk, hv⟩ (yamlMappingC_ok_forall2 walk rest tail ht)
  | _ :: [], items, h => by simp [yamlMappingC] at h

/-- C4: the tree walker of a mapping emits exactly one entry per key and
value pair of the content, in arrival order: the decoded items stand in
one-to-one, order-preserving correspondence with the content pairs, each
entry carrying the text of its own key occurrence and its own walked
value; in particular a repeated key yields one entry per occurrence,
never merged or overwritten into a single entry. -/
theorem yamlMapping_preserves_duplicate_keys
    (walk : YamlNode → Except Err GoValue) (content : List YamlNode)
    (items : List (String × GoValue)) (h : yamlMappingC walk content = .ok items) :
    List.Forall₂
      (fun (kv : YamlNode × YamlNode) (it : String × GoValue) =>
        yamlStringScalarC kv.1 = .ok it.1 ∧ walk kv.2 = .ok it.2)
      (chunkPairs content) items :=
  yamlMappingC_ok_forall2 walk content items h

set_option maxRecDepth 8000 in
theorem yamlMapping_preserves_duplicate_keys_witness :
    List.Forall₂
      (fun (kv : YamlNode × YamlNode) (it : String × GoValue) =>
        yamlStringScalarC kv.1 = .ok it.1 ∧ yamlNode 3 kv.2 = .ok it.2)
      (chunkPairs dupKeyMappingContent)
      [("a", GoValue.int64 1), ("a", GoValue.int64 2)] :=
  yamlMapping_preserves_duplicate_keys (yamlNode 3) dupKeyMappingContent
    [("a", GoValue.int64 1), ("a", GoValue.int64 2)] rfl

theorem forall2_mem_left {α β : Type} {R : α → β → Prop} :
    ∀ {l1 : List α} {l2 : List β}, List.Forall₂ R l1 l2 → ∀ a ∈ l1, ∃ b, R a b := by
  intro l1 l2 h
  induction h with
  | nil => intro a ha; simp at ha
  | cons hr ht ih =>
    intro a ha
    rcases List.mem_cons.mp ha with rfl | ha2
    · exact ⟨_, hr⟩
    · exact ih a ha2

/-- C7: a mapping key is accepted by the walk exactly when it is a
scalar node whose resolved tag is the string, integer, or float tag, and
its raw text is then reused as the entry key; consequently a mapping
whose walk succeeded holds no boolean, null, timestamp or non-scalar key
node, i.e. such a key makes the walk of the enclosing mapping fail. -/
theorem yaml_map_key_acceptance :
    (∀ (n : YamlNode) (s : String),
      yamlStringScalarC n = .ok s ↔
        (n.kind = .scalarNode
          ∧ (n.longTag = yamlStringScalar ∨ n.longTag = yamlIntScalar
              ∨ n.longTag = yamlFloatScalar)
          ∧ s = n.value))
    ∧ (∀ (walk : YamlNode → Except Err GoValue) (content : List YamlNode)
        (items : List (String × GoValue)),
        yamlMappingC walk content = .ok items →
        ∀ kv ∈ chunkPairs content,
          (kv : YamlNode × YamlNode).1.kind = .scalarNode
            ∧ (kv.1.longTag = yamlStringScalar ∨ kv.1.longTag = yamlIntScalar
                ∨ kv.1.longTag = yamlFloatScalar)) := by
  have hiff : ∀ (n : YamlNode) (s : String),
      yamlStringScalarC n = .ok s ↔
        (n.kind = .scalarNode
          ∧ (n.longTag = yamlStringScalar ∨ n.longTag = yamlIntScalar
              ∨ n.longTag = yamlFloatScalar)
          ∧ s = n.value) := by
    intro n s
    unfold yamlStringScalarC
    split
    · rename_i hk
      split
      · rename_i ht
        constructor
        · intro h
          injection h with h
          exact ⟨hk, ht, h.symm⟩
        · rintro ⟨_, _, rfl⟩
          rfl
      · rename_i ht
        constructor
        · intro h
          simp at h
        · rintro ⟨_, ht2, _⟩
          exact absurd ht2 ht
    · rename_i hk
      constructor
      · intro h
        simp at h
      · rintro ⟨hk2, _, _⟩
        exact absurd hk2 hk
  refine ⟨hiff, ?_⟩
  intro walk content items h kv hkv
  obtain ⟨it, h1, _⟩ :=
    forall2_mem_left (yamlMappingC_ok_forall2 walk content items h) kv hkv
  obtain ⟨hkind, htag, _⟩ := (hiff kv.1 it.1).mp h1
  exact ⟨hkind, htag⟩

theorem yaml_map_key_acceptance_witness :
    (YamlNode.mk .scalarNode false yamlIntScalar "7" [] none).kind = .scalarNode
      ∧ ((YamlNode.mk .scalarNode false yamlIntScalar "7" [] none).longTag = yamlStringScalar
          ∨ (YamlNode.mk .scalarNode false yamlIntScalar "7" [] none).longTag = yamlIntScalar
          ∨ (YamlNode.mk .scalarNode false yamlIntScalar "7" [] none).longTag = yamlFloatScalar)
      ∧ "7" = (YamlNode.mk .scalarNode false yamlIntScalar "7" [] none).value :=
  (yaml_map_key_acceptance.1 _ "7").mp rfl

theorem formatKey_ok_canonical :
    ∀ k : GoKey, k.isIntOrString = true → formatKey k = .ok k.canonicalText := by
  intro k h
  cases k <;> simp_all [GoKey.isIntOrString, formatKey, GoKey.canonicalText]

theorem formatKey_error_of_rejected :
    ∀ k : GoKey, k.isIntOrString = false → ∃ e, formatKey k = .error e := by
  intro k h
  cases k <;> simp_all [GoKey.isIntOrString, formatKey]

theorem transformObjC_ok_forall2 (trans : GoValue → Except Err GoValue) :
    ∀ (entries : List (GoKey × GoValue)) (items : List (String × GoValue)),
      transformObjC trans entries = .ok items →
      List.Forall₂
        (fun (kv : GoKey × GoValue) (it : String × GoValue) =>
          formatKey kv.1 = .ok it.1 ∧ trans kv.2 = .ok it.2)
        entries items
  | [], items, h => by
    simp only [transformObjC, Except.ok.injEq] at h
    subst h
    exact List.Forall₂.nil
  | (ke, va) :: rest, items, h => by
    cases hk : formatKey ke with
    | error e => simp [transformObjC, hk] at h
    | ok k =>
      cases hv : trans va with
      | error e => simp [transformObjC, hk, hv] at h
      | ok v =>
        cases ht : transformObjC trans rest with
        | error e => simp [transformObjC, hk, hv, ht] at h
        | ok tail =>
          have h2 : (k, v) :: tail = items := by
            simpa [transformObjC, hk, hv, ht] using h
          subst h2
          exact List.Forall₂.cons ⟨hk, hv⟩ (transformObjC_ok_forall2 trans rest tail ht)

theorem transformObjC_error_of_bad_key (trans : GoValue → Except Err GoValue) :
    ∀ (entries : List (GoKey × GoValue)) (kv : GoKey × GoValue),
      kv ∈ entries → kv.1.isIntOrString = false →
      ∃ e, transformObjC trans entries = .error e
  | [], kv, hm, _ => absurd hm (by simp)
  | (ke, va) :: rest, kv, hm, hbad => by
    rcases List.mem_cons.mp hm with rfl | hm2
    · obtain ⟨e0, he⟩ := formatKey_error_of_rejected ke hbad
      exact ⟨e0, by simp [transformObjC, he]⟩
    · cases hk : formatKey ke with
      | error e => exact ⟨e, by simp [transformObjC, hk]⟩
      | ok k =>
        cases hv : trans va with
        | error e => exact ⟨e, by simp [transformObjC, hk, hv]⟩
        | ok v =>
          obtain ⟨e, he⟩ := transformObjC_error_of_bad_key trans rest kv hm2 hbad
          exact ⟨e, by simp [transformObjC, hk, hv, he]⟩

/-- C9: the key normalizer accepts exactly string keys and signed or
unsigned integer keys of any width, coercing each to its canonical
string or base-10 decimal form in the resulting entry: a successful
normalization of a generic map produces entries pairing the formatted
keys with the transformed values, in iteration order, and a map holding
a key of any other runtime type (bool, float64) never normalizes
successfully but returns an error. -/
theorem transformData_generic_map_key_coercion :
    (∀ s, formatKey (.kstring s) = .ok s)
    ∧ (∀ k : GoKey, k.isIntOrString = true → formatKey k = .ok k.canonicalText)
    ∧ (∀ k : GoKey, k.isIntOrString = false → ∃ e, formatKey k = .error e)
    ∧ (∀ (f : Nat) (entries : List (GoKey × GoValue)) (out : GoValue),
        transformData (f + 1) (.mapAny entries) = .ok out →
        ∃ items, out = .mapSlice items
          ∧ List.Forall₂
              (fun (kv : GoKey × GoValue) (it : String × GoValue) =>
                formatKey kv.1 = .ok it.1 ∧ transformData f kv.2 = .ok it.2)
              entries items)
    ∧ (∀ (f : Nat) (entries : List (GoKey × GoValue)) (kv : GoKey × GoValue),
        kv ∈ entries → kv.1.isIntOrString = false →
        ∃ e, transformData (f + 1) (.mapAny entries) = .error e) := by
  refine ⟨fun s => rfl, formatKey_ok_canonical, formatKey_error_of_rejected, ?_, ?_⟩
  · intro f entries out h
    cases ht : transformObjC (transformData f) entries with
    | error e => simp [transformData, ht, Except.map] at h
    | ok items =>
      have h2 : GoValue.mapSlice items = out := by
        simpa [transformData, ht, Except.map] using h
      exact ⟨items, h2.symm, transformObjC_ok_forall2 (transformData f) entries items ht⟩
  · intro f entries kv hm hbad
    obtain ⟨e, he⟩ := transformObjC_error_of_bad_key (transformData f) entries kv hm hbad
    exact ⟨e, by simp [transformData, he, Except.map]⟩

theorem transformData_generic_map_key_coercion_witness :
    ∃ e, transformData 1 (.mapAny [(.kbool true, GoValue.null)]) = .error e :=
  transformData_generic_map_key_coercion.2.2.2.2 0 [(.kbool true, GoValue.null)]
    (.kbool true, GoValue.null) (List.Mem.head _) rfl

theorem char_eq_of_toNat_eq {a b : Char} (h : a.toNat = b.toNat) : a = b := by
  cases a; cases b
  simp only [Char.toNat] at h
  congr 1
  exact UInt32.toNat.inj h

theorem lexLe_total : ∀ as bs : List Char, lexLe as bs = true ∨ lexLe bs as = true := by
  intro as
  induction as with
  | nil => intro bs; left; rfl
  | cons a as ih =>
    intro bs
    cases bs with
    | nil => right; rfl
    | cons b bs =>
      by_cases h1 : a.toNat < b.toNat
      · left; simp [lexLe, h1]
      · by_cases h2 : b.toNat < a.toNat
        · right; simp [lexLe, h2]
        · rcases ih bs with h | h
          · left; simp [lexLe, h1, h2, h]
          · right; simp [lexLe, h1, h2, h]

theorem lexLe_trans :
    ∀ as bs cs : List Char,
      lexLe as bs = true → lexLe bs cs = true → lexLe as cs = true := by
  intro as
  induction as with
  | nil => intro bs cs h1 h2; rfl
  | cons a as ih =>
    intro bs cs h1 h2
    cases bs with
    | nil => simp [lexLe] at h1
    | cons b bs =>
      cases cs with
      | nil => simp [lexLe] at h2
      | cons c cs =>
        simp only [lexLe] at h1 h2 ⊢
        by_cases hab : a.toNat < b.toNat
        · by_cases hbc : b.toNat < c.toNat
          · have hac : a.toNat < c.toNat := Nat.lt_trans hab hbc
            simp [hac]
          · by_cases hcb : c.toNat < b.toNat
            · simp [hbc, hcb] at h2
            · have hac : a.toNat < c.toNat := by omega
              simp [hac]
        · by_cases hba : b.toNat < a.toNat
          · simp [hab, hba] at h1
          · simp only [if_neg hab, if_neg hba] at h1
            by_cases hbc : b.toNat < c.toNat
            · have hac : a.toNat < c.toNat := by omega
              simp [hac]
            · by_cases hcb : c.toNat < b.toNat
              · simp [hbc, hcb] at h2
              · simp only [if_neg hbc, if_neg hcb] at h2
                have h3 : ¬ a.toNat < c.toNat := by omega
                have h4 : ¬ c.toNat < a.toNat := by omega
                simp only [if_neg h3, if_neg h4]
                exact ih bs cs h1 h2

theorem lexLe_antisymm :
    ∀ as bs : List Char, lexLe as bs = true → lexLe bs as = true → as = bs := by
  intro as
  induction as with
  | nil =>
    intro bs h1 h2
    cases bs with
    | nil => rfl
    | cons b bs => simp [lexLe] at h2
  | cons a as ih =>
    intro bs h1 h2
    cases bs with
    | nil => simp [lexLe] at h1
    | cons b bs =>
      by_cases hab : a.toNat < b.toNat
      · have hba : ¬ b.toNat < a.toNat := by omega
        simp [lexLe, hab, hba] at h2
      · by_cases hba : b.toNat < a.toNat
        · simp [lexLe, hab, hba] at h1
        · simp only [lexLe, if_neg hab, if_neg hba] at h1 h2
          have hchar : a = b := char_eq_of_toNat_eq (by omega)
          rw [hchar, ih bs h1 h2]

instance : IsTotal String (fun a b => strLe a b = true) :=
  ⟨fun a b => lexLe_total a.toList b.toList⟩

instance : IsTrans String (fun a b => strLe a b = true) :=
  ⟨fun a b c => lexLe_trans a.toList b.toList c.toList⟩

instance : IsAntisymm String (fun a b => strLe a b = true) :=
  ⟨fun a b h1 h2 => String.ext (lexLe_antisymm a.toList b.toList h1 h2)⟩

theorem sortStrings_sorted (l : List String) :
    List.Sorted (fun a b => strLe a b = true) (sortStrings l) :=
  List.sorted_insertionSort _ l

theorem sortStrings_eq_of_perm {l1 l2 : List String} (h : l1.Perm l2) :
    sortStrings l1 = sortStrings l2 :=
  List.eq_of_perm_of_sorted
    ((List.perm_insertionSort _ l1).trans (h.trans (List.perm_insertionSort _ l2).symm))
    (sortStrings_sorted l1) (sortStrings_sorted l2)

theorem lookup_eq_of_perm {β : Type} :
    ∀ {e1 e2 : List (String × β)}, e1.Perm e2 → (e1.map Prod.fst).Nodup →
      ∀ k : String, e1.lookup k = e2.lookup k := by
  intro e1 e2 hp
  induction hp with
  | nil => intro _ k; rfl
  | cons x h ih =>
    intro hn k
    obtain ⟨a, b⟩ := x
    simp only [List.map, List.nodup_cons] at hn
    cases hx : k == a with
    | true => simp [List.lookup, hx]
    | false =>
      simp only [List.lookup, hx]
      exact ih hn.2 k
  | swap x y l =>
    intro hn k
    obtain ⟨a, b⟩ := x
    obtain ⟨c, d⟩ := y
    simp only [List.map, List.nodup_cons, List.mem_cons] at hn
    have hca : c ≠ a := fun hh => hn.1 (Or.inl hh)
    cases hc : k == c with
    | true =>
      have hck : k = c := by simpa using hc
      cases ha : k == a with
      | true =>
        have hak : k = a := by simpa using ha
        exact absurd (hck.symm.trans hak) hca
      | false => simp [List.lookup, hc, ha]
    | false =>
      cases ha : k == a with
      | true => simp [List.lookup, hc, ha]
      | false => simp [List.lookup, hc, ha]
  | trans h1 h2 ih1 ih2 =>
    intro hn k
    exact (ih1 hn k).trans (ih2 (((h1.map Prod.fst).nodup_iff).mp hn) k)

theorem json2yamlSortedC_congr (conv : GoValue → Except Err YamlNode)
    (e1 e2 : List (String × GoValue))
    (hl : ∀ k, e1.lookup k = e2.lookup k) :
    ∀ keys : List String,
      json2yamlSortedC conv e1 keys = json2yamlSortedC conv e2 keys
  | [] => rfl
  | k :: ks => by
    simp only [json2yamlSortedC, hl k, json2yamlSortedC_congr conv e1 e2 hl ks]

theorem json2yamlSortedC_ok_keys (conv : GoValue → Except Err YamlNode)
    (entries : List (String × GoValue)) :
    ∀ (keys : List String) (nodes : List YamlNode),
      json2yamlSortedC conv entries keys = .ok nodes → contentKeys nodes = keys
  | [], nodes, h => by
    simp only [json2yamlSortedC, Except.ok.injEq] at h
    subst h
    rfl
  | k :: ks, nodes, h => by
    cases hlk : entries.lookup k with
    | none => simp [json2yamlSortedC, hlk] at h
    | some v =>
      cases hc : conv v with
      | error e => simp [json2yamlSortedC, hlk, hc] at h
      | ok childNode =>
        cases ht : json2yamlSortedC conv entries ks with
        | error e => simp [json2yamlSortedC, hlk, hc, ht] at h
        | ok tail =>
          have h2 : strKeyNode k :: childNode :: tail = nodes := by
            simpa [json2yamlSortedC, hlk, hc, ht] using h
          subst h2
          simp [contentKeys, strKeyNode, YamlNode.value,
            json2yamlSortedC_ok_keys conv entries ks tail ht]

/-- C8: the generic string map case of the reverse converter emits the
key and value pairs sorted by the byte order of the keys, regardless of
the iteration order of the map: a successful conversion is a mapping
node whose key texts are exactly the sorted key list of the map (hence
sorted), and permuting the (duplicate-free) entry list of the map leaves
the outcome unchanged. -/
theorem json2yaml_generic_map_sorted_keys :
    (∀ (f : Nat) (entries : List (String × GoValue)) (n : YamlNode),
      json2yaml f (.mapString entries) = .ok n →
      n.kind = .mappingNode
        ∧ contentKeys n.content = sortStrings (entries.map Prod.fst)
        ∧ List.Sorted (fun a b => strLe a b = true) (contentKeys n.content))
    ∧ (∀ (f : Nat) (e1 e2 : List (String × GoValue)),
        e1.Perm e2 → (e1.map Prod.fst).Nodup →
        json2yaml f (.mapString e1) = json2yaml f (.mapString e2)) := by
  constructor
  · intro f entries n h
    match f with
    | 0 => simp [json2yaml] at h
    | f + 1 =>
      cases hs : json2yamlSortedC (json2yaml f) entries
          (sortStrings (entries.map Prod.fst)) with
      | error e => simp [json2yaml, isNil, hs, Except.map] at h
      | ok nodes =>
        have h2 : YamlNode.mk .mappingNode false "" "" nodes none = n := by
          simpa [json2yaml, isNil, hs, Except.map] using h
        subst h2
        refine ⟨rfl, ?_, ?_⟩
        · simpa [YamlNode.content] using
            json2yamlSortedC_ok_keys (json2yaml f) entries _ nodes hs
        · rw [show (YamlNode.mk .mappingNode false "" "" nodes none).content
              = nodes from rfl,
            json2yamlSortedC_ok_keys (json2yaml f) entries _ nodes hs]
          exact sortStrings_sorted _
  · intro f e1 e2 hp hn
    match f with
    | 0 => rfl
    | f + 1 =>
      have hkeys : sortStrings (e1.map Prod.fst) = sortStrings (e2.map Prod.fst) :=
        sortStrings_eq_of_perm (hp.map Prod.fst)
      have hcongr := json2yamlSortedC_congr (json2yaml f) e1 e2 (lookup_eq_of_perm hp hn)
      simp only [json2yaml, isNil]
      rw [hkeys, hcongr]

theorem json2yaml_generic_map_sorted_keys_witness :
    json2yaml 3 (.mapString [("b", GoValue.str "x"), ("a", GoValue.str "y")]) =
      json2yaml 3 (.mapString [("a", GoValue.str "y"), ("b", GoValue.str "x")]) :=
  json2yaml_generic_map_sorted_keys.2 3 _ _
    (List.Perm.swap ("a", GoValue.str "y") ("b", GoValue.str "x") [])
    (by decide)
